import Mathlib

/-!
Verification of the online PPG acquisition and peak-detection engine of
`ect/recording.py` (class `Oximeter`).

The Python class is shallowly embedded as follows.

* Signal values are exact reals (`ℝ`); Python float arithmetic is modelled by
  real arithmetic.
* The mutable object is the structure `Oximeter` below; every method becomes a
  function from states to states.
* Runtime errors that the Python code can raise (`AttributeError`,
  `IndexError`, `ValueError`, `ZeroDivisionError`) are modelled by
  `Except PyErr`: `add_paquet` is the faithful, error-aware translation of
  `Oximeter.add_paquet`, and `add_paquet_pure` is its successful path.  A
  lemma proves that on every state reachable from a fresh channel-less
  session with positive sampling rate the two agree.
* `sfreq` is a natural number; the source default is 75.  The derived
  refractory distance is `int(sfreq * 0.2)`, embedded as `(2 * sfreq) / 10`
  (truncating division), which is `15` at the default rate.
-/

/-- The Python runtime errors the `Oximeter` methods can raise. -/
inductive PyErr where
  | attributeError
  | indexError
  | valueError
  | zeroDivisionError
deriving DecidableEq

/-- Python slice `l[-k:]`: the trailing `k` elements, except that `l[-0:]`
is the whole list (`int(window*sfreq)` can make `k = 0` only for a zero
window, never with the defaults). -/
def sliceLast (k : ℕ) (l : List α) : List α :=
  if k = 0 then l else l.drop (l.length - k)

/-- The window the specification describes: the most recent `k` values, or
all available values if fewer than `k` exist. -/
def lastWindow (k : ℕ) (l : List α) : List α :=
  l.drop (l.length - k)

/-- `np.mean` on a nonempty list: sum divided by length. -/
noncomputable def npMean (l : List ℝ) : ℝ := l.sum / l.length

/-- `np.var` (population variance, `ddof = 0`): mean squared deviation. -/
noncomputable def npVar (l : List ℝ) : ℝ :=
  (l.map (fun v => (v - npMean l) ^ 2)).sum / l.length

/-- `np.std` (population standard deviation). -/
noncomputable def npStd (l : List ℝ) : ℝ := Real.sqrt (npVar l)

/-- `np.diff`: first differences of consecutive elements. -/
def npDiff : List ℝ → List ℝ
  | a :: b :: t => (b - a) :: npDiff (b :: t)
  | _ => []

/-- Helper for `npWhere`: indices (starting at `i`) of the nonzero entries. -/
def whereAux (i : ℕ) : List ℕ → List ℕ
  | [] => []
  | a :: t => if a ≠ 0 then i :: whereAux (i + 1) t else whereAux (i + 1) t

/-- `np.where(l)[0]`: the (ascending) indices of the nonzero entries. -/
def npWhere (l : List ℕ) : List ℕ := whereAux 0 l

/-- `np.diff(w)[-1]`: the gap between the last two entries of `w`
(the entries produced by `npWhere` are ascending, so natural subtraction
agrees with the Python integer subtraction). -/
def lastGap (w : List ℕ) : ℕ := w.getLastD 0 - w.dropLast.getLastD 0

/-- Three-valued sign, used to state the specification's
"the sign of `diff[n]` differs from the sign of `diff[n-1]`". -/
noncomputable def sgn (x : ℝ) : ℤ :=
  if x < 0 then -1 else if x = 0 then 0 else 1

/-- `Oximeter.check`: validate a 5-byte frame.  Translated from the nested
`if` chain of the source; note the source tests `len(paquet) >= 5`, not
`== 5`, and then only inspects the first five entries. -/
def check (paquet : List ℤ) : Bool :=
  if 5 ≤ paquet.length then
    if paquet.getD 0 0 = 1 then
      if 0 ≤ paquet.getD 1 0 ∧ paquet.getD 1 0 ≤ 255 then
        if 0 ≤ paquet.getD 2 0 ∧ paquet.getD 2 0 ≤ 255 then
          if paquet.getD 3 0 ≤ 127 then
            if paquet.getD 4 0 = (paquet.take 4).sum % 256 then true
            else false
          else false
        else false
      else false
    else false
  else false

/-- The state of an `Oximeter` instance (the `serial` handle is external and
not part of the session state).  `channels` is the optional dict of
additional channels, represented by its list of values. -/
structure Oximeter where
  lag : ℤ
  sfreq : ℕ
  dist : ℤ
  instant_rr : List ℝ
  recording : List ℝ
  times : List ℝ
  threshold : List ℝ
  diff : List ℝ
  peaks : List ℕ
  channels : Option (List (List ℝ))

/-- `Oximeter.__init__`.  `dist = int(sfreq * 0.2)`.  When `add_channels`
is not `None` the source overwrites it with the constant `5` and creates
five empty channel lists keyed `Channel_0 .. Channel_4`. -/
def init (sfreq : ℕ) (add_channels : Option ℕ) : Oximeter :=
  { lag := 0
    sfreq := sfreq
    dist := ((2 * sfreq) / 10 : ℕ)
    instant_rr := []
    recording := []
    times := []
    threshold := []
    diff := []
    peaks := []
    channels := match add_channels with
      | some _ => some (List.replicate 5 [])
      | none => none }

/-- `Oximeter.setup`: the source calls `self.__init__(serial=self.serial)`,
passing only the serial handle, so `sfreq` and `add_channels` revert to
their defaults (`75` and `None`) whatever the session was created with.
The subsequent synchronization loop only consumes device bytes and does
not change the session fields further. -/
def setup (_s : Oximeter) : Oximeter := init 75 none

/-- Shared tail of `add_paquet` after the peak decision: the
`if self.lag >= 0: self.peaks.append(0)` padding, the `self.lag += 1`
increment, and the instantaneous heart-rate update
(`sum(self.peaks) > 2` guards
`(np.diff(np.where(self.peaks)[0])[-1]/self.sfreq)*1000`). -/
noncomputable def finishStep (s : Oximeter) (rec' times' threshold' diff' : List ℝ)
    (peaks2 : List ℕ) (lag2 : ℤ) : Oximeter :=
  let peaks3 := if 0 ≤ lag2 then peaks2 ++ [0] else peaks2
  let rrNew : ℝ :=
    if 2 < peaks3.sum then ((lastGap (npWhere peaks3) : ℝ) / (s.sfreq : ℝ)) * 1000
    else 0
  { s with
    recording := rec'
    times := times'
    threshold := threshold'
    diff := diff'
    peaks := peaks3
    lag := lag2 + 1
    instant_rr := s.instant_rr ++ [rrNew] }

/-- The updated `times` vector: `[0]` on the first ingest, otherwise
`self.times.append(len(self.times)/self.sfreq)`. -/
noncomputable def newTimes (s : Oximeter) : List ℝ :=
  if s.times.isEmpty then [(0 : ℝ)]
  else s.times ++ [(s.times.length : ℝ) / (s.sfreq : ℝ)]

/-- The freshly appended threshold value:
`np.mean(recording[-window:]) + np.std(recording[-window:])` after the new
value has been appended to the recording. -/
noncomputable def thrOf (win : ℕ) (s : Oximeter) (x : ℝ) : ℝ :=
  npMean (sliceLast (win * s.sfreq) (s.recording ++ [x])) +
    npStd (sliceLast (win * s.sfreq) (s.recording ++ [x]))

/-- The updated `(diff, peaks)` pair before the peak decision: while `diff`
is empty the source rebuilds `diff = np.diff(recording)` and resets
`peaks = [0]*len(recording)`; otherwise it appends
`recording[-1] - recording[-2]` and keeps `peaks`. -/
noncomputable def diffPeaks (s : Oximeter) (x : ℝ) : List ℝ × List ℕ :=
  if s.diff.isEmpty then
    (npDiff (s.recording ++ [x]), List.replicate (s.recording ++ [x]).length 0)
  else (s.diff ++ [x - s.recording.getLastD 0], s.peaks)

/-- The peak test exactly as the source nests it: threshold crossing, then
`(diff[-1] == 0) | ((diff[-1] > 0) != (diff[-2] > 0))`, then
`diff[-2] > 0`, then `lag > dist`. -/
noncomputable abbrev regInternal (win : ℕ) (s : Oximeter) (x : ℝ) : Prop :=
  thrOf win s x < x ∧
    ((diffPeaks s x).1.getLastD 0 = 0 ∨
      ¬ ((0 < (diffPeaks s x).1.getLastD 0) ↔ (0 < (diffPeaks s x).1.dropLast.getLastD 0))) ∧
    0 < (diffPeaks s x).1.dropLast.getLastD 0 ∧
    s.dist < s.lag

/-- `Oximeter.add_paquet` (default `window=1` generalised to `win` whole
seconds), successful path.  Field-by-field translation of the source:
append the value, extend `times`, append `np.mean + np.std` of the trailing
window to `threshold`, rebuild `diff` and `peaks` from scratch while `diff`
is empty (first two ingests) and append otherwise, then run the
threshold-crossing / zero-crossing / rising / refractory peak test. -/
noncomputable def add_paquet_pure (win : ℕ) (s : Oximeter) (x : ℝ) : Oximeter :=
  if regInternal win s x then
    finishStep s (s.recording ++ [x]) (newTimes s) (s.threshold ++ [thrOf win s x])
      (diffPeaks s x).1 ((diffPeaks s x).2 ++ [1]) (-1)
  else
    finishStep s (s.recording ++ [x]) (newTimes s) (s.threshold ++ [thrOf win s x])
      (diffPeaks s x).1 (diffPeaks s x).2 s.lag

/-- `Oximeter.add_paquet`, error-aware translation.

* With channels configured, `for ch in self.channels: ch.append(0)`
  iterates over the *keys* of the dict (strings), and `str` has no
  `append`, so the very first ingest raises `AttributeError`.
* With `sfreq = 0` and a nonempty `times`, `len(self.times)/self.sfreq`
  raises `ZeroDivisionError`.
* When the candidate gate `paquet > self.threshold[-1]` fires, the test
  `(self.diff[-1] == 0) | ((self.diff[-1] > 0) != (self.diff[-2] > 0))`
  evaluates both operands of the non-lazy `|`, so it reads `diff[-1]` and
  `diff[-2]` and raises `IndexError` when fewer than two differentials
  exist; `self.recording[-2]` likewise needs two recorded values. -/
noncomputable def add_paquet (win : ℕ) (s : Oximeter) (x : ℝ) : Except PyErr Oximeter :=
  match s.channels with
  | some _ => .error .attributeError
  | none =>
    if ¬ s.times.isEmpty ∧ s.sfreq = 0 then .error .zeroDivisionError
    else if ¬ s.diff.isEmpty ∧ s.recording.getLast?.isNone then .error .indexError
    else if thrOf win s x < x then
      match (diffPeaks s x).1.getLast?, (diffPeaks s x).1.dropLast.getLast? with
      | some d1, some d2 =>
        if (d1 = 0 ∨ ¬ ((0 < d1) ↔ (0 < d2))) ∧ 0 < d2 ∧ s.dist < s.lag then
          .ok (finishStep s (s.recording ++ [x]) (newTimes s)
            (s.threshold ++ [thrOf win s x]) (diffPeaks s x).1 ((diffPeaks s x).2 ++ [1]) (-1))
        else
          .ok (finishStep s (s.recording ++ [x]) (newTimes s)
            (s.threshold ++ [thrOf win s x]) (diffPeaks s x).1 (diffPeaks s x).2 s.lag)
      | _, _ => .error .indexError
    else
      .ok (finishStep s (s.recording ++ [x]) (newTimes s)
        (s.threshold ++ [thrOf win s x]) (diffPeaks s x).1 (diffPeaks s x).2 s.lag)

/-- Ingest a whole list of decoded values into a fresh channel-less session
(successful path). -/
noncomputable def run (sfreq win : ℕ) (xs : List ℝ) : Oximeter :=
  xs.foldl (add_paquet_pure win) (init sfreq none)

/-- Ingest a whole list of decoded values into a fresh channel-less session,
error-aware. -/
noncomputable def runE (sfreq win : ℕ) (xs : List ℝ) : Except PyErr Oximeter :=
  xs.foldlM (fun s x => add_paquet win s x) (init sfreq none)

/-- `Oximeter.readInWaiting`: drain the device while at least five bytes are
buffered.  A valid frame is ingested (`add_paquet(paquet[2])`, default
window).  On an invalid frame with `stop=True`, `ValueError` is raised.
With `stop=False` the source prints and then executes
`self.triggers[-1] = -1`; but `__init__` never creates `self.triggers`
(no method does), so this raises `AttributeError` — the inline
resynchronization loop that follows it is unreachable. -/
noncomputable def readInWaiting (s : Oximeter) (dev : List ℤ) (stop : Bool) :
    Except PyErr Oximeter :=
  if 5 ≤ dev.length then
    let paquet := dev.take 5
    if check paquet then
      match add_paquet 1 s ((paquet.getD 2 0 : ℤ) : ℝ) with
      | .ok s2 => readInWaiting s2 (dev.drop 5) stop
      | .error e => .error e
    else if stop then .error .valueError
    else .error .attributeError
  else .ok s
termination_by dev.length
decreasing_by simp [List.length_drop]; omega

/-- The peak-registration condition of the specification, phrased as the
claims phrase it: the new value strictly exceeds the freshly appended
threshold, the new differential is zero or its sign differs from the
previous differential's sign, the previous differential is strictly
positive, and `lag > dist`. -/
noncomputable abbrev regCondition (win : ℕ) (s : Oximeter) (x : ℝ) : Prop :=
  thrOf win s x < x ∧
    (x - s.recording.getLastD 0 = 0 ∨
      sgn (x - s.recording.getLastD 0) ≠ sgn (s.diff.getLastD 0)) ∧
    0 < s.diff.getLastD 0 ∧
    s.dist < s.lag

/-- Every entry of the list is `0` or `1`. -/
def zeroOne (l : List ℕ) : Prop := ∀ p ∈ l, p = 0 ∨ p = 1

/-- Every entry of the list is nonnegative. -/
def allNonneg (l : List ℝ) : Prop := ∀ v ∈ l, 0 ≤ v

/-- `lag` never exceeds the distance from any registered peak to the end of
the peak train. -/
def lagBound (l : List ℕ) (lag : ℤ) : Prop :=
  ∀ i, i < l.length → l.getD i 0 = 1 → lag ≤ (l.length : ℤ) - 1 - i

/-- Any two `1`-entries of the peak train are more than `d` apart. -/
def spaced (l : List ℕ) (d : ℤ) : Prop :=
  ∀ i j, i < j → j < l.length → l.getD i 0 = 1 → l.getD j 0 = 1 →
    d < (j : ℤ) - (i : ℤ)

/-- Invariant of reachable channel-less sessions. -/
def SessionInv (s : Oximeter) : Prop :=
  s.channels = none ∧
  0 ≤ s.lag ∧
  s.times.length = s.recording.length ∧
  s.threshold.length = s.recording.length ∧
  s.instant_rr.length = s.recording.length ∧
  s.diff.length = s.recording.length - 1 ∧
  (s.diff.isEmpty ↔ s.recording.length ≤ 1) ∧
  (s.recording.length = 0 → s.peaks.length = 0) ∧
  (s.recording.length ≠ 0 → s.peaks.length = s.recording.length + 1) ∧
  zeroOne s.peaks ∧
  allNonneg s.instant_rr ∧
  lagBound s.peaks s.lag ∧
  spaced s.peaks s.dist

/-! ### List helpers -/

theorem sliceLast_singleton (k : ℕ) (x : ℝ) : sliceLast k [x] = [x] := by
  unfold sliceLast
  rcases k with _ | k
  · simp
  · simp

theorem sliceLast_pair (k : ℕ) (y x : ℝ) :
    sliceLast k [y, x] = [y, x] ∨ sliceLast k [y, x] = [x] := by
  unfold sliceLast
  rcases k with _ | _ | k
  · simp
  · right; simp
  · left; simp

theorem sliceLast_eq_lastWindow (k : ℕ) (hk : k ≠ 0) (l : List α) :
    sliceLast k l = lastWindow k l := by
  simp [sliceLast, lastWindow, hk]

theorem npDiff_length (l : List ℝ) : (npDiff l).length = l.length - 1 := by
  induction l with
  | nil => simp [npDiff]
  | cons a t ih =>
    cases t with
    | nil => simp [npDiff]
    | cons b u => simp [npDiff] at ih ⊢; omega

theorem getD_append_lt (l l' : List ℕ) (n : ℕ) (h : n < l.length) :
    (l ++ l').getD n 0 = l.getD n 0 := by
  induction l generalizing n with
  | nil => simp at h
  | cons a t ih =>
    cases n with
    | zero => simp
    | succ m => simp only [List.cons_append, List.getD_cons_succ]
                exact ih m (by simp at h; omega)

theorem getD_append_len (l : List ℕ) (a : ℕ) : (l ++ [a]).getD l.length 0 = a := by
  induction l with
  | nil => simp
  | cons b t ih => simp only [List.cons_append, List.length_cons, List.getD_cons_succ]; exact ih

theorem zeroOne_append (l : List ℕ) (a : ℕ) (hl : zeroOne l) (ha : a = 0 ∨ a = 1) :
    zeroOne (l ++ [a]) := by
  intro p hp
  rcases List.mem_append.1 hp with h | h
  · exact hl p h
  · simp at h; subst h; exact ha

theorem zeroOne_replicate (n : ℕ) : zeroOne (List.replicate n 0) := by
  intro p hp
  left
  exact List.eq_of_mem_replicate hp

theorem sum_eq_count_one (l : List ℕ) (h : zeroOne l) : l.sum = l.count 1 := by
  induction l with
  | nil => simp
  | cons a t ih =>
    have ht : zeroOne t := fun p hp => h p (List.mem_cons_of_mem a hp)
    rcases h a (List.mem_cons_self a t) with h0 | h1
    · subst h0; simp [List.count_cons, ih ht]
    · subst h1; simp [List.count_cons, ih ht]; omega

/-! ### Mean / standard deviation of tiny windows -/

theorem npMean_singleton (x : ℝ) : npMean [x] = x := by
  simp [npMean]

theorem npVar_singleton (x : ℝ) : npVar [x] = 0 := by
  simp [npVar, npMean_singleton]

theorem npStd_singleton (x : ℝ) : npStd [x] = 0 := by
  simp [npStd, npVar_singleton]

theorem npMean_pair (y x : ℝ) : npMean [y, x] = (y + x) / 2 := by
  simp [npMean]

theorem npVar_pair (y x : ℝ) : npVar [y, x] = ((x - y) / 2) ^ 2 := by
  simp [npVar, npMean_pair]
  ring

theorem npStd_pair (y x : ℝ) : npStd [y, x] = |x - y| / 2 := by
  rw [npStd, npVar_pair, Real.sqrt_sq_eq_abs, abs_div]
  norm_num

theorem le_mean_add_std_pair (y x : ℝ) : x ≤ npMean [y, x] + npStd [y, x] := by
  rw [npMean_pair, npStd_pair]
  have h := le_abs_self (x - y)
  linarith

/-- While at most one sample was recorded before the new value, the freshly
computed threshold is at least the new value (on a one- or two-element
window, `mean + std` is the maximum), so the candidate-peak gate
`paquet > self.threshold[-1]` cannot fire. -/
theorem last_le_thr (k : ℕ) (ys : List ℝ) (x : ℝ) (h : ys.length ≤ 1) :
    x ≤ npMean (sliceLast k (ys ++ [x])) + npStd (sliceLast k (ys ++ [x])) := by
  rcases ys with _ | ⟨y, t⟩
  · rw [List.nil_append, sliceLast_singleton, npMean_singleton, npStd_singleton]
    simp
  · rcases t with _ | ⟨z, u⟩
    · rcases sliceLast_pair k y x with hs | hs
      · rw [List.cons_append, List.nil_append, hs]
        exact le_mean_add_std_pair y x
      · rw [List.cons_append, List.nil_append, hs, npMean_singleton, npStd_singleton]
        simp
    · simp at h

/-! ### Field projections of one ingest -/

theorem finishStep_peaks (s : Oximeter) (r t th d : List ℝ) (p2 : List ℕ) (l2 : ℤ) :
    (finishStep s r t th d p2 l2).peaks = if 0 ≤ l2 then p2 ++ [0] else p2 := rfl

theorem finishStep_lag (s : Oximeter) (r t th d : List ℝ) (p2 : List ℕ) (l2 : ℤ) :
    (finishStep s r t th d p2 l2).lag = l2 + 1 := rfl

theorem finishStep_instant_rr (s : Oximeter) (r t th d : List ℝ) (p2 : List ℕ) (l2 : ℤ) :
    (finishStep s r t th d p2 l2).instant_rr
      = s.instant_rr ++
        [if 2 < (if 0 ≤ l2 then p2 ++ [0] else p2).sum then
          ((lastGap (npWhere (if 0 ≤ l2 then p2 ++ [0] else p2)) : ℝ) / (s.sfreq : ℝ)) * 1000
        else 0] := rfl

theorem step_recording (win : ℕ) (s : Oximeter) (x : ℝ) :
    (add_paquet_pure win s x).recording = s.recording ++ [x] := by
  unfold add_paquet_pure
  split <;> rfl

theorem step_times (win : ℕ) (s : Oximeter) (x : ℝ) :
    (add_paquet_pure win s x).times = newTimes s := by
  unfold add_paquet_pure
  split <;> rfl

theorem step_threshold (win : ℕ) (s : Oximeter) (x : ℝ) :
    (add_paquet_pure win s x).threshold = s.threshold ++ [thrOf win s x] := by
  unfold add_paquet_pure
  split <;> rfl

theorem step_diff (win : ℕ) (s : Oximeter) (x : ℝ) :
    (add_paquet_pure win s x).diff = (diffPeaks s x).1 := by
  unfold add_paquet_pure
  split <;> rfl

theorem step_sfreq (win : ℕ) (s : Oximeter) (x : ℝ) :
    (add_paquet_pure win s x).sfreq = s.sfreq := by
  unfold add_paquet_pure
  split <;> rfl

theorem step_dist (win : ℕ) (s : Oximeter) (x : ℝ) :
    (add_paquet_pure win s x).dist = s.dist := by
  unfold add_paquet_pure
  split <;> rfl

theorem step_channels (win : ℕ) (s : Oximeter) (x : ℝ) :
    (add_paquet_pure win s x).channels = s.channels := by
  unfold add_paquet_pure
  split <;> rfl

theorem step_peaks_of_reg (win : ℕ) (s : Oximeter) (x : ℝ) (h : regInternal win s x) :
    (add_paquet_pure win s x).peaks = (diffPeaks s x).2 ++ [1] ∧
      (add_paquet_pure win s x).lag = 0 := by
  unfold add_paquet_pure
  rw [if_pos h]
  constructor
  · rw [finishStep_peaks, if_neg (by norm_num)]
  · rw [finishStep_lag]; norm_num

theorem step_peaks_of_not_reg (win : ℕ) (s : Oximeter) (x : ℝ) (hl : 0 ≤ s.lag)
    (h : ¬ regInternal win s x) :
    (add_paquet_pure win s x).peaks = (diffPeaks s x).2 ++ [0] ∧
      (add_paquet_pure win s x).lag = s.lag + 1 := by
  unfold add_paquet_pure
  rw [if_neg h]
  exact ⟨by rw [finishStep_peaks, if_pos hl], finishStep_lag _ _ _ _ _ _ _⟩

theorem finish_rr_apd (s : Oximeter) (r t th d : List ℝ) (p2 : List ℕ) (l2 : ℤ) :
    ∃ rr : ℝ, (finishStep s r t th d p2 l2).instant_rr = s.instant_rr ++ [rr] ∧
      (rr = 0 ∨ ∃ g : ℕ, rr = ((g : ℝ) / (s.sfreq : ℝ)) * 1000) := by
  rw [finishStep_instant_rr]
  refine ⟨_, rfl, ?_⟩
  by_cases h : 2 < (if 0 ≤ l2 then p2 ++ [0] else p2).sum
  · right; exact ⟨_, by rw [if_pos h]⟩
  · left; rw [if_neg h]

theorem step_instant_rr_apd (win : ℕ) (s : Oximeter) (x : ℝ) :
    ∃ r : ℝ, (add_paquet_pure win s x).instant_rr = s.instant_rr ++ [r] ∧
      (r = 0 ∨ ∃ g : ℕ, r = ((g : ℝ) / (s.sfreq : ℝ)) * 1000) := by
  unfold add_paquet_pure
  split <;> exact finish_rr_apd _ _ _ _ _ _ _

theorem lagBound_allzero (l : List ℕ) (lag : ℤ) (h : ∀ p ∈ l, p = 0) :
    lagBound l lag := by
  intro i hi h1
  rw [List.getD_eq_getElem l 0 hi] at h1
  have := h _ (List.getElem_mem hi)
  omega

theorem spaced_allzero (l : List ℕ) (d : ℤ) (h : ∀ p ∈ l, p = 0) : spaced l d := by
  intro i j _ hj h1 _
  rw [List.getD_eq_getElem l 0 hj] at *
  have hz := h _ (List.getElem_mem hj)
  omega

theorem allzero_repl_apd (m : ℕ) : ∀ p ∈ List.replicate m 0 ++ [(0 : ℕ)], p = 0 := by
  intro p hp
  rcases List.mem_append.1 hp with h | h
  · exact List.eq_of_mem_replicate h
  · simpa using h

/-! ### The reachable-state invariant -/

theorem inv_init (sfreq : ℕ) : SessionInv (init sfreq none) := by
  refine ⟨rfl, le_refl 0, rfl, rfl, rfl, rfl, by simp [init], by simp [init], ?_, ?_, ?_, ?_, ?_⟩
  · intro h; exact absurd rfl h
  · intro p hp; simp [init] at hp
  · intro v hv; simp [init] at hv
  · intro i hi; simp [init] at hi
  · intro i j _ hj; simp [init] at hj

theorem inv_step (win : ℕ) (s : Oximeter) (x : ℝ) (hs : SessionInv s) :
    SessionInv (add_paquet_pure win s x) := by
  obtain ⟨hch, hlag, htl, hthl, hrl, hdl, hde, hp0, hp1, hz, hnn, hlb, hsp⟩ := hs
  have hrec := step_recording win s x
  have hth := step_threshold win s x
  have hdf := step_diff win s x
  have htm := step_times win s x
  have hsf := step_sfreq win s x
  have hds := step_dist win s x
  have hchn := step_channels win s x
  have hreclen : (add_paquet_pure win s x).recording.length = s.recording.length + 1 := by
    rw [hrec]; simp
  have htimes_len : (newTimes s).length = s.recording.length + 1 := by
    unfold newTimes
    by_cases hte : s.times.isEmpty
    · rw [if_pos hte]
      have h0 : s.times.length = 0 := by
        simpa [List.isEmpty_iff, List.length_eq_zero] using hte
      have h1 : s.recording.length = 0 := by omega
      simp [h1]
    · rw [if_neg hte]; simp [htl]
  obtain ⟨r, hrr, hr0⟩ := step_instant_rr_apd win s x
  have hrrnn : allNonneg (add_paquet_pure win s x).instant_rr := by
    rw [hrr]
    intro v hv
    rcases List.mem_append.1 hv with h | h
    · exact hnn v h
    · simp at h
      subst h
      rcases hr0 with h | ⟨g, hg⟩
      · rw [h]
      · rw [hg]; positivity
  by_cases hbe : s.diff.isEmpty
  · -- first two ingests: diff rebuilt, peaks reset, gate cannot fire
    have hn1 : s.recording.length ≤ 1 := hde.1 hbe
    have hthr : x ≤ thrOf win s x := last_le_thr (win * s.sfreq) s.recording x hn1
    have hnr : ¬ regInternal win s x := fun hr => absurd hr.1 (not_lt.2 hthr)
    obtain ⟨hpk, hlg⟩ := step_peaks_of_not_reg win s x hlag hnr
    have hdp1 : (diffPeaks s x).1 = npDiff (s.recording ++ [x]) := by
      simp [diffPeaks, hbe]
    have hdp2 : (diffPeaks s x).2 = List.replicate (s.recording ++ [x]).length 0 := by
      simp [diffPeaks, hbe]
    have hall0 : ∀ p ∈ (add_paquet_pure win s x).peaks, p = 0 := by
      rw [hpk, hdp2]
      exact allzero_repl_apd (s.recording ++ [x]).length
    refine ⟨by rw [hchn, hch], by rw [hlg]; omega, by rw [htm, hreclen, htimes_len],
      by rw [hth, hreclen]; simp [hthl], by rw [hrr, hreclen]; simp [hrl],
      ?_, ?_, ?_, ?_, fun p hp => Or.inl (hall0 p hp), hrrnn,
      lagBound_allzero _ _ hall0, spaced_allzero _ _ hall0⟩
    · rw [hdf, hdp1, hreclen, npDiff_length]; simp
    · rw [hdf, hdp1, hreclen, List.isEmpty_iff, ← List.length_eq_zero, npDiff_length]
      simp only [List.length_append, List.length_singleton]
      omega
    · intro h; rw [hreclen] at h; omega
    · intro _
      rw [hpk, hdp2, hreclen]
      simp
  · -- steady state: diff and peaks are appended to
    have hn2 : 2 ≤ s.recording.length := by
      have h1 : ¬ (s.recording.length ≤ 1) := fun h => hbe (hde.2 h)
      omega
    have hdp1 : (diffPeaks s x).1 = s.diff ++ [x - s.recording.getLastD 0] := by
      simp [diffPeaks, hbe]
    have hdp2 : (diffPeaks s x).2 = s.peaks := by
      simp [diffPeaks, hbe]
    have hplen : s.peaks.length = s.recording.length + 1 := hp1 (by omega)
    have hdiffside : (add_paquet_pure win s x).diff.length
        = (add_paquet_pure win s x).recording.length - 1 := by
      rw [hdf, hdp1, hreclen]
      simp only [List.length_append, List.length_singleton]
      omega
    have hdiffempty : ((add_paquet_pure win s x).diff.isEmpty
        ↔ (add_paquet_pure win s x).recording.length ≤ 1) := by
      rw [hdf, hdp1, hreclen, List.isEmpty_iff]
      simp only [List.append_eq_nil, List.cons_ne_nil, and_false, false_iff]
      omega
    by_cases hr : regInternal win s x
    · obtain ⟨hpk, hlg⟩ := step_peaks_of_reg win s x hr
      rw [hdp2] at hpk
      refine ⟨by rw [hchn, hch], by rw [hlg], by rw [htm, hreclen, htimes_len],
        by rw [hth, hreclen]; simp [hthl], by rw [hrr, hreclen]; simp [hrl],
        hdiffside, hdiffempty, ?_, ?_, ?_, hrrnn, ?_, ?_⟩
      · intro h; rw [hreclen] at h; omega
      · intro _; rw [hpk, hreclen]; simp [hplen]
      · rw [hpk]; exact zeroOne_append _ _ hz (Or.inr rfl)
      · -- lag is 0 after a registration and every peak is at distance ≥ 1 from the end
        rw [hpk, hlg]
        intro i hi h1
        simp only [List.length_append, List.length_singleton] at hi ⊢
        omega
      · -- separation: a new peak is farther than dist from every older peak
        rw [hpk, hds]
        intro i j hij hj h1 h2
        simp only [List.length_append, List.length_singleton] at hj
        have hdlt : s.dist < s.lag := hr.2.2.2
        rcases Nat.lt_or_ge j s.peaks.length with hjlt | hjge
        · rw [getD_append_lt _ _ _ hjlt] at h2
          rw [getD_append_lt _ _ _ (lt_trans hij hjlt)] at h1
          exact hsp i j hij hjlt h1 h2
        · have hjeq : j = s.peaks.length := by omega
          have hilt : i < s.peaks.length := by omega
          rw [getD_append_lt _ _ _ hilt] at h1
          have hbnd := hlb i hilt h1
          rw [hjeq]
          omega
    · obtain ⟨hpk, hlg⟩ := step_peaks_of_not_reg win s x hlag hr
      rw [hdp2] at hpk
      refine ⟨by rw [hchn, hch], by rw [hlg]; omega, by rw [htm, hreclen, htimes_len],
        by rw [hth, hreclen]; simp [hthl], by rw [hrr, hreclen]; simp [hrl],
        hdiffside, hdiffempty, ?_, ?_, ?_, hrrnn, ?_, ?_⟩
      · intro h; rw [hreclen] at h; omega
      · intro _; rw [hpk, hreclen]; simp [hplen]
      · rw [hpk]; exact zeroOne_append _ _ hz (Or.inl rfl)
      · rw [hpk, hlg]
        intro i hi h1
        simp only [List.length_append, List.length_singleton] at hi ⊢
        rcases Nat.lt_or_ge i s.peaks.length with hilt | hige
        · rw [getD_append_lt _ _ _ hilt] at h1
          have hbnd := hlb i hilt h1
          omega
        · have hieq : i = s.peaks.length := by omega
          rw [hieq, getD_append_len] at h1
          omega
      · rw [hpk, hds]
        intro i j hij hj h1 h2
        simp only [List.length_append, List.length_singleton] at hj
        rcases Nat.lt_or_ge j s.peaks.length with hjlt | hjge
        · rw [getD_append_lt _ _ _ hjlt] at h2
          rw [getD_append_lt _ _ _ (lt_trans hij hjlt)] at h1
          exact hsp i j hij hjlt h1 h2
        · have hjeq : j = s.peaks.length := by omega
          rw [hjeq, getD_append_len] at h2
          omega

/-! ### Whole-session runs -/

theorem foldl_recording (win : ℕ) (xs : List ℝ) :
    ∀ s : Oximeter, (xs.foldl (add_paquet_pure win) s).recording = s.recording ++ xs := by
  induction xs with
  | nil => intro s; simp
  | cons y ys ih =>
    intro s
    rw [List.foldl_cons, ih, step_recording]
    simp

theorem run_recording (sfreq win : ℕ) (xs : List ℝ) :
    (run sfreq win xs).recording = xs := by
  rw [run, foldl_recording]
  simp [init]

theorem foldl_sfreq (win : ℕ) (xs : List ℝ) :
    ∀ s : Oximeter, (xs.foldl (add_paquet_pure win) s).sfreq = s.sfreq := by
  induction xs with
  | nil => intro s; rfl
  | cons y ys ih => intro s; rw [List.foldl_cons, ih, step_sfreq]

theorem run_sfreq (sfreq win : ℕ) (xs : List ℝ) : (run sfreq win xs).sfreq = sfreq := by
  rw [run, foldl_sfreq]; rfl

theorem foldl_dist (win : ℕ) (xs : List ℝ) :
    ∀ s : Oximeter, (xs.foldl (add_paquet_pure win) s).dist = s.dist := by
  induction xs with
  | nil => intro s; rfl
  | cons y ys ih => intro s; rw [List.foldl_cons, ih, step_dist]

theorem run_dist (sfreq win : ℕ) (xs : List ℝ) :
    (run sfreq win xs).dist = ((2 * sfreq) / 10 : ℕ) := by
  rw [run, foldl_dist]; rfl

theorem inv_run (sfreq win : ℕ) (xs : List ℝ) : SessionInv (run sfreq win xs) := by
  rw [run]
  have h : ∀ s : Oximeter, SessionInv s → SessionInv (xs.foldl (add_paquet_pure win) s) := by
    induction xs with
    | nil => intro s hs; exact hs
    | cons y ys ih => intro s hs; exact ih _ (inv_step win s y hs)
  exact h _ (inv_init sfreq)

theorem run_concat (sfreq win : ℕ) (xs : List ℝ) (x : ℝ) :
    run sfreq win (xs ++ [x]) = add_paquet_pure win (run sfreq win xs) x := by
  rw [run, run, List.foldl_append, List.foldl_cons, List.foldl_nil]

theorem getLast?_of_ne_nil (l : List ℝ) (h : l ≠ []) :
    l.getLast? = some (l.getLastD 0) := by
  obtain ⟨y, hy⟩ := Option.isSome_iff_exists.1 (List.getLast?_isSome.2 h)
  rw [hy, List.getLastD_eq_getLast?, hy]
  rfl

/-- On any state satisfying the structural half of the session invariant
and having a positive sampling rate, `add_paquet` succeeds and computes
exactly the pure step. -/
theorem add_paquet_ok (win : ℕ) (s : Oximeter) (x : ℝ) (hch : s.channels = none)
    (hsf : 0 < s.sfreq) (hde : s.diff.isEmpty ↔ s.recording.length ≤ 1) :
    add_paquet win s x = .ok (add_paquet_pure win s x) := by
  have hzd : ¬ (¬ s.times.isEmpty ∧ s.sfreq = 0) := fun h => by omega
  by_cases hbe : s.diff.isEmpty
  · have hn1 : s.recording.length ≤ 1 := hde.1 hbe
    have hthr : x ≤ thrOf win s x := last_le_thr (win * s.sfreq) s.recording x hn1
    have hnt : ¬ (thrOf win s x < x) := not_lt.2 hthr
    have hnr : ¬ regInternal win s x := fun hr => hnt hr.1
    have hie : ¬ (¬ s.diff.isEmpty ∧ s.recording.getLast?.isNone) := fun h => h.1 hbe
    simp only [add_paquet, hch]
    rw [if_neg hzd, if_neg hie, if_neg hnt]
    unfold add_paquet_pure
    rw [if_neg hnr]
  · have hn2 : ¬ (s.recording.length ≤ 1) := fun h => hbe (hde.2 h)
    have hrne : s.recording ≠ [] := by
      intro h; rw [h] at hn2; simp at hn2
    have hgl : s.recording.getLast?.isSome := List.getLast?_isSome.2 hrne
    have hie : ¬ (¬ s.diff.isEmpty ∧ s.recording.getLast?.isNone) := by
      intro h
      rw [Option.isNone_iff_eq_none] at h
      rw [h.2] at hgl
      simp at hgl
    have hdne : s.diff ≠ [] := fun h => hbe (by rw [h]; rfl)
    have hdp1 : (diffPeaks s x).1 = s.diff ++ [x - s.recording.getLastD 0] := by
      simp [diffPeaks, hbe]
    have hg1 : (diffPeaks s x).1.getLast? = some (x - s.recording.getLastD 0) := by
      rw [hdp1]; exact List.getLast?_concat _
    have hg2 : (diffPeaks s x).1.dropLast.getLast? = some (s.diff.getLastD 0) := by
      rw [hdp1, List.dropLast_concat]
      exact getLast?_of_ne_nil _ hdne
    have hd1 : (diffPeaks s x).1.getLastD 0 = x - s.recording.getLastD 0 := by
      rw [hdp1]; exact List.getLastD_concat _ _ _
    have hd2 : (diffPeaks s x).1.dropLast.getLastD 0 = s.diff.getLastD 0 := by
      rw [hdp1, List.dropLast_concat]
    simp only [add_paquet, hch]
    rw [if_neg hzd, if_neg hie]
    by_cases ht : thrOf win s x < x
    · rw [if_pos ht]
      simp only [hg1, hg2]
      by_cases hc : ((x - s.recording.getLastD 0 = 0 ∨
          ¬ ((0 < x - s.recording.getLastD 0) ↔ (0 < s.diff.getLastD 0))) ∧
          0 < s.diff.getLastD 0 ∧ s.dist < s.lag)
      · rw [if_pos hc]
        have hreg : regInternal win s x := by
          refine ⟨ht, ?_, ?_, hc.2.2⟩
          · rw [hd1, hd2]; exact hc.1
          · rw [hd2]; exact hc.2.1
        unfold add_paquet_pure
        rw [if_pos hreg]
      · rw [if_neg hc]
        have hnr : ¬ regInternal win s x := by
          intro hr
          obtain ⟨h1, h2, h3, h4⟩ := hr
          rw [hd1, hd2] at h2
          rw [hd2] at h3
          exact hc ⟨h2, h3, h4⟩
        unfold add_paquet_pure
        rw [if_neg hnr]
    · rw [if_neg ht]
      have hnr : ¬ regInternal win s x := fun hr => ht hr.1
      unfold add_paquet_pure
      rw [if_neg hnr]

/-- The error-aware run of a fresh channel-less session with positive
sampling rate never raises: it computes exactly the pure run. -/
theorem runE_ok (sfreq win : ℕ) (xs : List ℝ) (hsf : 0 < sfreq) :
    runE sfreq win xs = .ok (run sfreq win xs) := by
  rw [runE, run]
  suffices h : ∀ s : Oximeter, SessionInv s → s.sfreq = sfreq →
      xs.foldlM (fun s x => add_paquet win s x) s
        = .ok (xs.foldl (add_paquet_pure win) s) from
    h _ (inv_init sfreq) rfl
  induction xs with
  | nil => intro s _ _; rfl
  | cons y ys ih =>
    intro s hs hsfeq
    have hde := hs.2.2.2.2.2.2.1
    have hch := hs.1
    rw [List.foldlM_cons, add_paquet_ok win s y hch (by omega) hde]
    show ys.foldlM (fun s x => add_paquet win s x) (add_paquet_pure win s y) = _
    rw [List.foldl_cons]
    exact ih _ (inv_step win s y hs) (by rw [step_sfreq, hsfeq])

/-! ### Bridging the boolean test of the source and the sign wording of the
specification -/

theorem sgn_eq_one_iff (x : ℝ) : sgn x = 1 ↔ 0 < x := by
  unfold sgn
  split_ifs with h1 h2
  · constructor
    · intro h; exact absurd h (by norm_num)
    · intro h; linarith
  · constructor
    · intro h; exact absurd h (by norm_num)
    · intro h; rw [h2] at h; exact absurd h (lt_irrefl 0)
  · constructor
    · intro _; exact lt_of_le_of_ne (not_lt.1 h1) (fun h => h2 h.symm)
    · intro _; rfl

/-- With a strictly positive previous differential, the source's eager
`(diff[-1] == 0) | ((diff[-1] > 0) != (diff[-2] > 0))` test coincides with
the specification's "`diff[n]` is zero or its sign differs from the sign of
`diff[n-1]`". -/
theorem zero_or_signchange (d1 d2 : ℝ) (hpos : 0 < d2) :
    (d1 = 0 ∨ ¬ ((0 < d1) ↔ (0 < d2))) ↔ (d1 = 0 ∨ sgn d1 ≠ sgn d2) := by
  have h2 : sgn d2 = 1 := (sgn_eq_one_iff d2).2 hpos
  rw [h2]
  constructor
  · rintro (h0 | hiff)
    · exact Or.inl h0
    · right
      intro h1
      exact hiff ⟨fun _ => hpos, fun _ => (sgn_eq_one_iff d1).1 h1⟩
  · rintro (h0 | hsg)
    · exact Or.inl h0
    · right
      intro hiff
      exact hsg ((sgn_eq_one_iff d1).2 (hiff.2 hpos))

theorem reg_iff (win : ℕ) (s : Oximeter) (x : ℝ) (hne : ¬ s.diff.isEmpty) :
    regInternal win s x ↔ regCondition win s x := by
  have hdp1 : (diffPeaks s x).1 = s.diff ++ [x - s.recording.getLastD 0] := by
    simp [diffPeaks, hne]
  have hd1 : (diffPeaks s x).1.getLastD 0 = x - s.recording.getLastD 0 := by
    rw [hdp1]; exact List.getLastD_concat _ _ _
  have hd2 : (diffPeaks s x).1.dropLast.getLastD 0 = s.diff.getLastD 0 := by
    rw [hdp1, List.dropLast_concat]
  simp only [regInternal, regCondition]
  rw [hd1, hd2]
  constructor
  · rintro ⟨ht, hmid, hpos, hlag⟩
    exact ⟨ht, (zero_or_signchange _ _ hpos).1 hmid, hpos, hlag⟩
  · rintro ⟨ht, hmid, hpos, hlag⟩
    exact ⟨ht, (zero_or_signchange _ _ hpos).2 hmid, hpos, hlag⟩

theorem run_singleton (sfreq win : ℕ) (v : ℝ) :
    run sfreq win [v] = add_paquet_pure win (init sfreq none) v := by
  rw [run]
  rfl

/-! ### Claim theorems -/

/-- C1 (amended): after `n` ingests into a session created without auxiliary
channels, `recording`, `times`, `threshold` and `instant_rr` have length
`n`, but `diff` has length `n - 1` and `peaks` has length `n + 1` when
`n ≥ 1` (the first ingest appends two `0`s to `peaks`, and the second
rebuilds it to length 2 before appending another `0`). -/
theorem series_lengths_after_run (sfreq win : ℕ) (xs : List ℝ) :
    (run sfreq win xs).recording.length = xs.length ∧
    (run sfreq win xs).times.length = xs.length ∧
    (run sfreq win xs).threshold.length = xs.length ∧
    (run sfreq win xs).instant_rr.length = xs.length ∧
    (run sfreq win xs).diff.length = xs.length - 1 ∧
    (run sfreq win xs).peaks.length = xs.length + min xs.length 1 := by
  have hinv := inv_run sfreq win xs
  have hrec : (run sfreq win xs).recording.length = xs.length := by rw [run_recording]
  obtain ⟨-, -, htl, hthl, hrl, hdl, -, hp0, hp1, -, -, -, -⟩ := hinv
  refine ⟨hrec, by rw [htl, hrec], by rw [hthl, hrec], by rw [hrl, hrec],
    by rw [hdl, hrec], ?_⟩
  rcases Nat.eq_zero_or_pos xs.length with h0 | hpos
  · rw [hp0 (by rw [hrec, h0])]
    omega
  · rw [hp1 (by rw [hrec]; omega), hrec]
    omega

/-- C1 counterexample: after a single ingest the peak train already has two
entries, not one, so not all per-sample series have length `n` after `n`
ingests. -/
theorem peaks_length_one_ingest : (run 75 1 [(0 : ℝ)]).peaks.length ≠ 1 := by
  have h := (inv_run 75 1 [0]).2.2.2.2.2.2.2.2.1 (by rw [run_recording]; simp)
  rw [run_recording] at h
  simp at h
  omega

/-- C3: in any session reachable by ingests from a fresh channel-less
session, any two `1`-entries of `peaks` are more than `dist` samples apart
(`lag > dist` must have held at the later registration, `lag` having been
reset to `-1` at the earlier one and incremented by exactly one per
ingest). -/
theorem peaks_well_spaced (sfreq win : ℕ) (xs : List ℝ) :
    spaced (run sfreq win xs).peaks (run sfreq win xs).dist :=
  (inv_run sfreq win xs).2.2.2.2.2.2.2.2.2.2.2.2

/-- C4: on a paquet of exactly five bytes, `check` accepts iff
`p[0] == 1`, `0 ≤ p[1] ≤ 255`, `0 ≤ p[2] ≤ 255`, `p[3] ≤ 127` and
`p[4] == (p[0]+p[1]+p[2]+p[3]) mod 256`. -/
theorem check_valid_iff (p : List ℤ) (h5 : p.length = 5) :
    check p = true ↔
      (p.getD 0 0 = 1 ∧
       0 ≤ p.getD 1 0 ∧ p.getD 1 0 ≤ 255 ∧
       0 ≤ p.getD 2 0 ∧ p.getD 2 0 ≤ 255 ∧
       p.getD 3 0 ≤ 127 ∧
       p.getD 4 0 = (p.getD 0 0 + p.getD 1 0 + p.getD 2 0 + p.getD 3 0) % 256) := by
  rcases p with _ | ⟨a, _ | ⟨b, _ | ⟨c, _ | ⟨d, _ | ⟨e, _ | t⟩⟩⟩⟩⟩ <;> simp at h5
  simp [check]
  intro _
  constructor
  · rintro ⟨hb, hc, hd, he⟩
    refine ⟨hb.1, hb.2, hc.1, hc.2, hd, ?_⟩
    rw [he]; ring_nf
  · rintro ⟨hb1, hb2, hc1, hc2, hd, he⟩
    refine ⟨⟨hb1, hb2⟩, ⟨hc1, hc2⟩, hd, ?_⟩
    rw [he]; ring_nf

/-- C4 witness: a concrete valid frame of exactly five bytes. -/
theorem check_valid_iff_witness :
    ([(1 : ℤ), 10, 20, 5, 36] : List ℤ).length = 5 ∧
    (check [1, 10, 20, 5, 36] = true ↔
      (([(1 : ℤ), 10, 20, 5, 36]).getD 0 0 = 1 ∧
       0 ≤ ([(1 : ℤ), 10, 20, 5, 36]).getD 1 0 ∧ ([(1 : ℤ), 10, 20, 5, 36]).getD 1 0 ≤ 255 ∧
       0 ≤ ([(1 : ℤ), 10, 20, 5, 36]).getD 2 0 ∧ ([(1 : ℤ), 10, 20, 5, 36]).getD 2 0 ≤ 255 ∧
       ([(1 : ℤ), 10, 20, 5, 36]).getD 3 0 ≤ 127 ∧
       ([(1 : ℤ), 10, 20, 5, 36]).getD 4 0
         = (([(1 : ℤ), 10, 20, 5, 36]).getD 0 0 + ([(1 : ℤ), 10, 20, 5, 36]).getD 1 0 +
            ([(1 : ℤ), 10, 20, 5, 36]).getD 2 0 + ([(1 : ℤ), 10, 20, 5, 36]).getD 3 0) % 256)) :=
  ⟨by decide, check_valid_iff [1, 10, 20, 5, 36] (by decide)⟩

/-- C10 counterexample: a six-byte paquet whose first five bytes form a
valid frame is accepted by `check`, so `check` does not return false on
every input whose length differs from 5. -/
theorem check_six_bytes :
    ([(1 : ℤ), 0, 0, 0, 1, 99] : List ℤ).length ≠ 5 ∧
      check [(1 : ℤ), 0, 0, 0, 1, 99] = true := by
  decide

/-- C10 (amended): `check` rejects every paquet shorter than five bytes, and
on longer paquets its verdict depends only on the first five bytes:
`check p = (5 ≤ |p|) && check (p.take 5)`. -/
theorem check_first_five (p : List ℤ) :
    check p = (decide (5 ≤ p.length) && check (p.take 5)) := by
  rcases p with _ | ⟨a, _ | ⟨b, _ | ⟨c, _ | ⟨d, _ | ⟨e, t⟩⟩⟩⟩⟩ <;> simp [check]

/-- C9 counterexample: `setup` re-runs `__init__` with only the serial
handle, so a session created with `sfreq = 100` has `sfreq = 75` after
`setup`: the configuration chosen at creation is not preserved. -/
theorem setup_forgets_sfreq :
    (setup (init 100 none)).sfreq ≠ (init 100 none).sfreq := by
  decide

/-- C9 (amended): after `setup` every per-sample series is empty and `lag`
is `0`, but the configuration is reset to the defaults (`sfreq = 75`,
`dist = 15`, no auxiliary channels) rather than kept: the session equals a
freshly created session with default configuration, whatever configuration
it was created with. -/
theorem setup_resets (s : Oximeter) :
    (setup s).recording = [] ∧ (setup s).times = [] ∧ (setup s).threshold = [] ∧
    (setup s).diff = [] ∧ (setup s).peaks = [] ∧ (setup s).instant_rr = [] ∧
    (setup s).lag = 0 ∧ (setup s).sfreq = 75 ∧ (setup s).dist = 15 ∧
    (setup s).channels = none ∧ setup s = init 75 none :=
  ⟨rfl, rfl, rfl, rfl, rfl, rfl, rfl, rfl, by norm_num [setup, init], rfl, rfl⟩

/-- C8 (code bug): in the non-blocking drain with `stop=False`, an invalid
frame does not lead to the logged inline resynchronization the
specification describes: the handler executes `self.triggers[-1] = -1`,
but `__init__` never creates the `triggers` attribute, so the drain raises
`AttributeError` and the resynchronization loop after it is dead code. -/
theorem readInWaiting_crash :
    readInWaiting (init 75 none) [0, 0, 0, 0, 0] false = .error .attributeError := by
  rw [readInWaiting]
  norm_num [check]

theorem step_instant_rr_eq (win : ℕ) (s : Oximeter) (x : ℝ) :
    (add_paquet_pure win s x).instant_rr
      = s.instant_rr ++
        [if 2 < (add_paquet_pure win s x).peaks.sum then
            ((lastGap (npWhere (add_paquet_pure win s x).peaks) : ℝ) / (s.sfreq : ℝ)) * 1000
          else 0] := by
  unfold add_paquet_pure
  split <;> rw [finishStep_instant_rr, finishStep_peaks]

/-- C6: each ingest appends exactly one entry to the RR series: the last
gap between registered peak positions (divided by the sampling rate, in
milliseconds) once at least three peaks have been registered, `0`
otherwise; the RR series always has the length of the recording, and every
entry is nonnegative. -/
theorem instant_rr_after_ingest (sfreq win : ℕ) (xs : List ℝ) (x : ℝ) :
    (run sfreq win (xs ++ [x])).instant_rr
      = (run sfreq win xs).instant_rr ++
        [if 3 ≤ (run sfreq win (xs ++ [x])).peaks.count 1 then
            ((lastGap (npWhere (run sfreq win (xs ++ [x])).peaks) : ℝ) / (sfreq : ℝ)) * 1000
          else 0] ∧
    (run sfreq win (xs ++ [x])).instant_rr.length
      = (run sfreq win (xs ++ [x])).recording.length ∧
    allNonneg (run sfreq win (xs ++ [x])).instant_rr := by
  have hinv := inv_run sfreq win (xs ++ [x])
  refine ⟨?_, hinv.2.2.2.2.1, hinv.2.2.2.2.2.2.2.2.2.2.1⟩
  have hz : zeroOne (run sfreq win (xs ++ [x])).peaks := hinv.2.2.2.2.2.2.2.2.2.1
  have hsc := sum_eq_count_one _ hz
  have hfs : (run sfreq win xs).sfreq = sfreq := run_sfreq sfreq win xs
  rw [run_concat] at hsc ⊢
  rw [step_instant_rr_eq, hfs]
  congr 1
  congr 1
  apply if_congr _ rfl rfl
  rw [hsc]
  omega

/-- C5: each ingest appends `mean(window) + std(window)` to the threshold
series, where the window is the trailing `window_seconds * sampling_rate`
values of the recording including the new one (all values if fewer exist);
with a single recorded sample the appended threshold is that sample. -/
theorem threshold_mean_plus_std (sfreq win : ℕ) (xs : List ℝ) (x v : ℝ)
    (hw : 0 < win * sfreq) :
    (run sfreq win (xs ++ [x])).threshold
      = (run sfreq win xs).threshold ++
        [npMean (lastWindow (win * sfreq) (xs ++ [x])) +
          npStd (lastWindow (win * sfreq) (xs ++ [x]))] ∧
    (run sfreq win [v]).threshold = [v] := by
  constructor
  · rw [run_concat, step_threshold]
    have h : thrOf win (run sfreq win xs) x
        = npMean (lastWindow (win * sfreq) (xs ++ [x])) +
          npStd (lastWindow (win * sfreq) (xs ++ [x])) := by
      unfold thrOf
      rw [run_sfreq, run_recording, sliceLast_eq_lastWindow _ (by omega)]
    rw [h]
  · rw [run_singleton, step_threshold]
    have h : thrOf win (init sfreq none) v = v := by
      unfold thrOf
      have h1 : (init sfreq none).recording ++ [v] = [v] := by simp [init]
      rw [h1, sliceLast_singleton, npMean_singleton, npStd_singleton, add_zero]
    rw [h]
    simp [init]

/-- C5 witness: instantiating at the default configuration. -/
theorem threshold_mean_plus_std_witness :
    0 < 1 * 75 ∧
    ((run 75 1 ([] ++ [(2 : ℝ)])).threshold
        = (run 75 1 []).threshold ++
          [npMean (lastWindow (1 * 75) ([] ++ [(2 : ℝ)])) +
            npStd (lastWindow (1 * 75) ([] ++ [(2 : ℝ)]))] ∧
      (run 75 1 [(3 : ℝ)]).threshold = [3]) :=
  ⟨by norm_num, threshold_mean_plus_std 75 1 [] 2 3 (by norm_num)⟩

/-- C2: at any ingest performed on a state with a nonempty differential
series (so at least two differentials exist after the update) and a
nonnegative lag (true of every reachable state), a peak is registered --
`1` is appended to `peaks` and `lag` is set to `-1`, hence `0` after the
unconditional end-of-ingest increment -- exactly when the new value
strictly exceeds the freshly appended threshold, the new differential is
zero or its sign differs from the sign of the previous differential, the
previous differential is strictly positive, and `lag > dist`; in every
other case `0` is appended to `peaks`. -/
theorem peak_registration_iff (win : ℕ) (s : Oximeter) (x : ℝ)
    (hne : ¬ s.diff.isEmpty) (hl : 0 ≤ s.lag) :
    (add_paquet_pure win s x).peaks
        = s.peaks ++ [if regCondition win s x then 1 else 0] ∧
    (add_paquet_pure win s x).lag
        = if regCondition win s x then 0 else s.lag + 1 := by
  have hdp2 : (diffPeaks s x).2 = s.peaks := by simp [diffPeaks, hne]
  by_cases hr : regInternal win s x
  · have hrc : regCondition win s x := (reg_iff win s x hne).1 hr
    obtain ⟨hpk, hlg⟩ := step_peaks_of_reg win s x hr
    rw [hpk, hdp2, hlg, if_pos hrc, if_pos hrc]
    exact ⟨rfl, rfl⟩
  · have hrc : ¬ regCondition win s x := fun h => hr ((reg_iff win s x hne).2 h)
    obtain ⟨hpk, hlg⟩ := step_peaks_of_not_reg win s x hl hr
    rw [hpk, hdp2, hlg, if_neg hrc, if_neg hrc]
    exact ⟨rfl, rfl⟩

/-- A concrete mid-session state: two samples recorded, one differential,
lag well past the refractory distance. -/
noncomputable def midState : Oximeter :=
  { lag := 5, sfreq := 5, dist := 1, instant_rr := [0, 0], recording := [0, 10],
    times := [0, 0.2], threshold := [0, 10], diff := [10], peaks := [0, 0, 0],
    channels := none }

/-- C2 witness: the registration equation instantiated at a concrete state
and input. -/
theorem peak_registration_iff_witness :
    (¬ midState.diff.isEmpty ∧ 0 ≤ midState.lag) ∧
    ((add_paquet_pure 1 midState 9).peaks
        = midState.peaks ++ [if regCondition 1 midState 9 then 1 else 0] ∧
      (add_paquet_pure 1 midState 9).lag
        = if regCondition 1 midState 9 then 0 else midState.lag + 1) :=
  ⟨⟨by simp [midState], by norm_num [midState]⟩,
    peak_registration_iff 1 midState 9 (by simp [midState]) (by norm_num [midState])⟩

/-- C7 counterexample: in a session created with auxiliary channels, the
very first ingest raises `AttributeError` (the source iterates the dict
keys, which are strings, and calls `append` on them), so not every early
ingest completes without error. -/
theorem channels_first_ingest_raises :
    add_paquet 1 (init 75 (some 3)) 0 = .error .attributeError := rfl

/-- C7 (amended): during the first two ingests of a session created without
auxiliary channels and with a positive sampling rate, the candidate-peak
gate `paquet > threshold[-1]` is false (on windows of at most two samples
the threshold is their maximum), so no peak decision is made and the
branch that reads `diff[-2]` is never reached; the peak train is all
zeros, and the two ingests complete without raising any error. -/
theorem first_two_ingests (sfreq win : ℕ) (x1 x2 : ℝ) (hsf : 0 < sfreq) :
    runE sfreq win [x1, x2] = .ok (run sfreq win [x1, x2]) ∧
    (run sfreq win [x1, x2]).peaks = [0, 0, 0] ∧
    ¬ (thrOf win (init sfreq none) x1 < x1) ∧
    ¬ (thrOf win (run sfreq win [x1]) x2 < x2) := by
  have h1 : x1 ≤ thrOf win (init sfreq none) x1 := by
    unfold thrOf
    exact last_le_thr _ _ _ (by simp [init])
  have h2 : x2 ≤ thrOf win (run sfreq win [x1]) x2 := by
    unfold thrOf
    exact last_le_thr _ _ _ (by rw [run_recording]; simp)
  refine ⟨runE_ok sfreq win [x1, x2] hsf, ?_, not_lt.2 h1, not_lt.2 h2⟩
  have hnr1 : ¬ regInternal win (init sfreq none) x1 := fun hr => absurd hr.1 (not_lt.2 h1)
  have hnr2 : ¬ regInternal win (run sfreq win [x1]) x2 := fun hr => absurd hr.1 (not_lt.2 h2)
  have hsplit : run sfreq win [x1, x2] = add_paquet_pure win (run sfreq win [x1]) x2 := by
    rw [show ([x1, x2] : List ℝ) = [x1] ++ [x2] from rfl, run_concat]
  have hlag1 : (0 : ℤ) ≤ (run sfreq win [x1]).lag := (inv_run sfreq win [x1]).2.1
  obtain ⟨hpk2, -⟩ := step_peaks_of_not_reg win (run sfreq win [x1]) x2 hlag1 hnr2
  have hd1v : (run sfreq win [x1]).diff = [] := by
    rw [run_singleton, step_diff]
    simp [diffPeaks, init, npDiff]
  have hdp2v : (diffPeaks (run sfreq win [x1]) x2).2
      = List.replicate ((run sfreq win [x1]).recording ++ [x2]).length 0 := by
    simp [diffPeaks, hd1v]
  rw [hsplit, hpk2, hdp2v, run_recording]
  rfl

/-- C7 witness: the amended statement at the default configuration. -/
theorem first_two_ingests_witness :
    0 < 75 ∧
    (runE 75 1 [(0 : ℝ), 0] = .ok (run 75 1 [(0 : ℝ), 0]) ∧
      (run 75 1 [(0 : ℝ), 0]).peaks = [0, 0, 0] ∧
      ¬ (thrOf 1 (init 75 none) (0 : ℝ) < (0 : ℝ)) ∧
      ¬ (thrOf 1 (run 75 1 [(0 : ℝ)]) (0 : ℝ) < (0 : ℝ))) :=
  ⟨by norm_num, first_two_ingests 75 1 0 0 (by norm_num)⟩
